import Mathlib

/-!
# Verification of the CanvasBoard drawing engine (src/components/CanvasBoard.tsx)

Shallow embedding of the canvas drawing engine. The two HTML canvases are
modelled as `Surface`s (a pixel grid with rational RGBA channels in `[0,1]`,
an exact idealisation of the 8-bit channels); the 2D-context operations used
by the source (`fillRect`, `clearRect`, `getImageData`/`putImageData`,
`drawImage` with a destination rectangle and `globalAlpha` compositing) are
given an explicit pixel semantics.  Scaling in `drawImage` is modelled as
nearest-neighbour sampling (the browser's interpolation filter is not
specified by the source; any deterministic filter supports the same results).
The browser's path rasteriser behind `ctx.stroke()` is not code of this
repository, so it is a parameter (`Rasterizer`); the concrete instance `dotR`
paints each path vertex and is used for concrete runs.

React specifics are modelled as follows: the `tool` prop current at the time
an event handler fires is the tool the handler reads (handlers are re-bound
on every render), so the system state `Sys` carries the current tool and a
tool change is an event; the `useEffect` on `[tool]` (which re-applies
line-cap/join to the scratch context) runs as part of that event.
-/

namespace MLProject

/-! Kernel-reducible rational arithmetic.  Batteries marks `Rat.add`,
`Rat.mul`, `Rat.sub` and `Rat.inv` `@[irreducible]`, which blocks `decide`
on concrete pixel computations, so the model uses its own operations on
`ℚ`, defined through `Rat.divInt` on numerators and denominators; the
bridge lemmas `qadd_eq`, `qsub_eq`, `qmul_eq`, `qdiv_eq`, `qle_iff`,
`qlt_iff` and `qfloor_eq` (in the theorem section below) prove each equal
to the standard operation, so symbolic reasoning happens over the usual
`ℚ` algebra while concrete runs evaluate in the kernel. -/

/-- Addition on `ℚ`, kernel-reducible. -/
def qadd (a b : ℚ) : ℚ := Rat.divInt (a.num * b.den + b.num * a.den) (a.den * b.den)

/-- Subtraction on `ℚ`, kernel-reducible. -/
def qsub (a b : ℚ) : ℚ := Rat.divInt (a.num * b.den - b.num * a.den) (a.den * b.den)

/-- Multiplication on `ℚ`, kernel-reducible. -/
def qmul (a b : ℚ) : ℚ := Rat.divInt (a.num * b.num) (a.den * b.den)

/-- Division on `ℚ`, kernel-reducible. -/
def qdiv (a b : ℚ) : ℚ := Rat.divInt (a.num * b.den) (a.den * b.num)

/-- The order on `ℚ` by cross-multiplication, kernel-reducible. -/
def qle (a b : ℚ) : Prop := a.num * b.den ≤ b.num * a.den

/-- The strict order on `ℚ` by cross-multiplication, kernel-reducible. -/
def qlt (a b : ℚ) : Prop := a.num * b.den < b.num * a.den

/-- The floor of a rational, kernel-reducible. -/
def qfloor (a : ℚ) : ℤ := a.num / a.den

instance (a b : ℚ) : Decidable (qle a b) := by
  unfold qle
  exact inferInstance

instance (a b : ℚ) : Decidable (qlt a b) := by
  unfold qlt
  exact inferInstance

/-- RGBA pixel, channels as exact rationals in `[0,1]`. -/
structure Pixel where
  r : ℚ
  g : ℚ
  b : ℚ
  a : ℚ
deriving DecidableEq

/-- The background fill colour `'#ffffff'` (opaque white). -/
def whiteP : Pixel := ⟨1, 1, 1, 1⟩

/-- Transparent black, the state of a cleared / freshly (re)sized canvas. -/
def clearP : Pixel := ⟨0, 0, 0, 0⟩

/-- Default 2D-context stroke colour (opaque black). -/
def blackP : Pixel := ⟨0, 0, 0, 1⟩

/-- Source-over compositing of `src` onto `dst` at global alpha `alpha`. -/
def blendPix (alpha : ℚ) (src dst : Pixel) : Pixel :=
  let sa := qmul alpha src.a
  let da := qsub 1 sa
  ⟨qadd (qmul sa src.r) (qmul da dst.r),
   qadd (qmul sa src.g) (qmul da dst.g),
   qadd (qmul sa src.b) (qmul da dst.b),
   qadd sa (qmul da dst.a)⟩

/-- A raster surface: a canvas of `width × height` pixels. -/
structure Surface where
  width : ℕ
  height : ℕ
  pix : ℕ → ℕ → Pixel

/-- A fresh (or just-resized) canvas: every pixel transparent black. -/
def Surface.blank (w h : ℕ) : Surface := ⟨w, h, fun _ _ => clearP⟩

/-- `ctx.fillRect(0, 0, width, height)` with fill colour `c` at alpha 1. -/
def Surface.fillAll (s : Surface) (c : Pixel) : Surface :=
  { s with pix := fun x y => if x < s.width ∧ y < s.height then c else s.pix x y }

/-- `ctx.clearRect(0, 0, width, height)`. -/
def Surface.clearAll (s : Surface) : Surface :=
  { s with pix := fun x y => if x < s.width ∧ y < s.height then clearP else s.pix x y }

/-- `ctx.putImageData(item, 0, 0)`: overwrite pixels in `item`'s rectangle. -/
def Surface.putImageData (dst item : Surface) : Surface :=
  { dst with pix := fun x y =>
      if x < item.width ∧ y < item.height ∧ x < dst.width ∧ y < dst.height then
        item.pix x y
      else dst.pix x y }

/-- Nearest-neighbour source coordinate for destination coordinate `v` when
drawing a source extent of `srcExtent` pixels into a destination span
starting at `offset` of length `extent`. -/
def sampleCoord (v offset extent : ℚ) (srcExtent : ℕ) : ℕ :=
  (qfloor (qdiv (qmul (qsub v offset) (srcExtent : ℚ)) extent)).toNat

/-- The destination pixels affected by `ctx.drawImage` into the rectangle
`(ox, oy, dw, dh)`: inside the rectangle and on the destination canvas. -/
def covers (dst : Surface) (ox oy dw dh : ℚ) (x y : ℕ) : Prop :=
  x < dst.width ∧ y < dst.height ∧
  qle ox (x : ℚ) ∧ qlt (x : ℚ) (qadd ox dw) ∧
  qle oy (y : ℚ) ∧ qlt (y : ℚ) (qadd oy dh)

instance (dst : Surface) (ox oy dw dh : ℚ) (x y : ℕ) :
    Decidable (covers dst ox oy dw dh x y) := by
  unfold covers
  exact inferInstance

/-- `ctx.drawImage(src, ox, oy, dw, dh)` at `ctx.globalAlpha = alpha`:
draw `src` scaled into the destination rectangle, source-over composited,
clipped to the destination canvas. -/
def Surface.drawImage (dst src : Surface) (ox oy dw dh alpha : ℚ) : Surface :=
  { dst with pix := fun x y =>
      if covers dst ox oy dw dh x y then
        let sx := sampleCoord x ox dw src.width
        let sy := sampleCoord y oy dh src.height
        blendPix alpha (src.pix sx sy) (dst.pix x y)
      else dst.pix x y }

/-- Pixel-level equality of two surfaces: same dimensions and the same
colour at every in-bounds coordinate. -/
def Surface.pixEq (s t : Surface) : Prop :=
  s.width = t.width ∧ s.height = t.height ∧
  ∀ x, x < s.width → ∀ y, y < s.height → s.pix x y = t.pix x y

instance (s t : Surface) : Decidable (s.pixEq t) := by
  unfold Surface.pixEq
  exact inferInstance

/-- Tool mode, the `DrawingTool` union `'brush' | 'eraser'`
(`src/services/geminiService.ts` line 109). -/
inductive ToolMode where
  | brush
  | eraser
deriving DecidableEq

/-- Tool shape, the `DrawingTool` union `'round' | 'square'`
(`src/services/geminiService.ts` line 110). -/
inductive ToolShape where
  | round
  | square
deriving DecidableEq

/-- The `DrawingTool` interface of `types.ts`, staged in
`src/services/geminiService.ts` lines 106–112 (the `types.ts` content is
bundled there after a document separator):
`{ color: string; width: number; mode: 'brush' | 'eraser';
shape: 'round' | 'square'; opacity: number }` — the CSS colour string
(e.g. `'#000000'`) is modelled as a `Pixel`, the numbers as `ℚ`. -/
structure DrawingTool where
  color : Pixel
  width : ℚ
  mode : ToolMode
  shape : ToolShape
  opacity : ℚ

/-- The retained state of the scratch (`tempCanvasRef`) 2D context:
stroke style, line width, the cap/join pair (both derived from
`tool.shape`, stored as one field) and the open path. -/
structure ScratchCtx where
  strokeStyle : Pixel
  lineWidth : ℚ
  cap : ToolShape
  path : List (ℚ × ℚ)

/-- The browser's path rasteriser behind `ctx.stroke()`: paints the current
path with the current stroke style / line width / cap onto the canvas.
It is platform code, not code of this repository, hence a parameter. -/
def Rasterizer : Type :=
  List (ℚ × ℚ) → Pixel → ℚ → ToolShape → Surface → Surface

/-- A concrete rasteriser for concrete runs: paints the pixel under each
path vertex with the stroke style, fully opaque, clipped to the canvas. -/
def dotR : Rasterizer := fun path c _ _ s =>
  { s with pix := fun x y =>
      if x < s.width ∧ y < s.height ∧
         (∃ q ∈ path, (qfloor q.1).toNat = x ∧ (qfloor q.2).toNat = y) then
        c
      else s.pix x y }

/-- The engine state owned by `CanvasBoard`: the committed surface
(`mainCanvasRef`), the scratch surface (`tempCanvasRef`), the scratch
context state, the history stack (`historyRef` / `historyStep`) and the
`isDrawing` flag.  `historyStep` is `ℕ`: the source's transient `-1` exists
only before the mount effect records the initial entry, which `init` below
performs atomically. -/
structure EngineState where
  main : Surface
  temp : Surface
  tempCtx : ScratchCtx
  history : List Surface
  historyStep : ℕ
  isDrawing : Bool

/-- The history array right after the truncate-and-push of `saveToHistory`
(lines 35–42): the redo branch after the cursor is discarded when the
cursor is mid-stack, then the snapshot of the committed surface
(`getImageData` of the full canvas) is appended. -/
def recordArr (st : EngineState) : List Surface :=
  (if st.historyStep + 1 < st.history.length then
     st.history.take (st.historyStep + 1)
   else st.history) ++ [st.main]

/-- `saveToHistory` (lines 32–50): truncate the redo branch when the cursor
is mid-stack, snapshot the committed surface, append it, move the cursor to
the last index, and evict the oldest entry (decrementing the cursor) if the
length now exceeds 50. -/
def saveToHistory (st : EngineState) : EngineState :=
  let hist1 := recordArr st
  let st1 := { st with history := hist1, historyStep := hist1.length - 1 }
  if 50 < hist1.length then
    { st1 with history := hist1.drop 1, historyStep := st1.historyStep - 1 }
  else st1

/-- `applyHistoryItem` (lines 53–73): restore a snapshot onto the committed
surface; on a dimension mismatch, fill white and draw the snapshot scaled
to the full current bounds. -/
def applyHistoryItem (cur item : Surface) : Surface :=
  if item.width = cur.width ∧ item.height = cur.height then
    cur.putImageData item
  else
    (cur.fillAll whiteP).drawImage item 0 0 (cur.width : ℚ) (cur.height : ℚ) 1

/-- `undo` (lines 186–195). -/
def undo (st : EngineState) : EngineState :=
  if 0 < st.historyStep then
    match st.history[st.historyStep - 1]? with
    | some d => { st with historyStep := st.historyStep - 1,
                          main := applyHistoryItem st.main d }
    | none => { st with historyStep := st.historyStep - 1 }
  else st

/-- `redo` (lines 196–205). -/
def redo (st : EngineState) : EngineState :=
  if st.historyStep + 1 < st.history.length then
    match st.history[st.historyStep + 1]? with
    | some d => { st with historyStep := st.historyStep + 1,
                          main := applyHistoryItem st.main d }
    | none => { st with historyStep := st.historyStep + 1 }
  else st

/-- `clearCanvas` (lines 168–185): fill the committed surface white at
forced alpha 1, record a history entry, then clear the scratch surface. -/
def clearCanvas (st : EngineState) : EngineState :=
  let st1 := saveToHistory { st with main := st.main.fillAll whiteP }
  { st1 with temp := st1.temp.clearAll }

/-- `exportImage` (lines 162–167): `toDataURL('image/png')` of the main
canvas — a pure read; the PNG payload is modelled as the committed surface
it encodes.  Returns the (unchanged) state and the encoded content. -/
def exportImage (st : EngineState) : EngineState × Surface :=
  (st, st.main)

/-- The aspect-fit computation of `loadImage` (lines 216–235): given the
canvas and image dimensions, returns `(offsetX, offsetY, drawWidth,
drawHeight)` — when the image is relatively wider than the canvas the width
fills the canvas and the height is centred, else symmetrically. -/
def fitRect (cw ch iw ih : ℚ) : ℚ × ℚ × ℚ × ℚ :=
  let imgRatio : ℚ := qdiv iw ih
  let canvasRatio : ℚ := qdiv cw ch
  let drawWidth := if qlt canvasRatio imgRatio then cw else qmul ch imgRatio
  let drawHeight := if qlt canvasRatio imgRatio then qdiv cw imgRatio else ch
  let offsetX := if qlt canvasRatio imgRatio then 0 else qdiv (qsub cw drawWidth) 2
  let offsetY := if qlt canvasRatio imgRatio then qdiv (qsub ch drawHeight) 2 else 0
  (offsetX, offsetY, drawWidth, drawHeight)

/-- `loadImage` (lines 206–244): on successful decode, fill white, compute
the aspect-fit rectangle (reading the canvas dimensions current at decode
completion), draw the decoded image there, and record a history entry; a
failed decode (`onload` never fires) changes nothing. -/
def loadImage (st : EngineState) (decoded : Option Surface) : EngineState :=
  match decoded with
  | none => st
  | some img =>
    let r := fitRect (st.main.width : ℚ) (st.main.height : ℚ)
      (img.width : ℚ) (img.height : ℚ)
    saveToHistory
      { st with main :=
          (st.main.fillAll whiteP).drawImage img r.1 r.2.1 r.2.2.1 r.2.2.2 1 }

/-- `handleResize` (lines 104–149): no-op when the dimensions already match;
otherwise snapshot the committed pixels, resize both canvases (which clears
them and resets their context state), fill white, draw the snapshot
stretched to the full new bounds, and re-apply the shape-derived cap/join
to the scratch context.  The history stack is untouched. -/
def handleResize (st : EngineState) (w h : ℕ) (tool : DrawingTool) : EngineState :=
  if st.main.width = w ∧ st.main.height = h then st
  else
    let snapshot := st.main
    let newMain := ((Surface.blank w h).fillAll whiteP).drawImage
                     snapshot 0 0 (w : ℚ) (h : ℚ) 1
    { st with
      main := newMain,
      temp := Surface.blank w h,
      tempCtx := { strokeStyle := blackP, lineWidth := 1, cap := tool.shape, path := [] } }

/-- `startDrawing` (lines 268–284): open a path at the pointer, capture the
stroke style (white when erasing, else the tool colour) and line width on
the scratch context, extend by `0.1` px so a tap leaves a mark, and
stroke. -/
def startDrawing (rast : Rasterizer) (st : EngineState) (tool : DrawingTool)
    (p : ℚ × ℚ) : EngineState :=
  let ctx0 := { st.tempCtx with
                path := [p],
                strokeStyle := if tool.mode = ToolMode.eraser then whiteP else tool.color,
                lineWidth := tool.width }
  let ctx1 := { ctx0 with path := ctx0.path ++ [(qadd p.1 (qdiv 1 10), p.2)] }
  { st with
    isDrawing := true,
    tempCtx := ctx1,
    temp := rast ctx1.path ctx1.strokeStyle ctx1.lineWidth ctx1.cap st.temp }

/-- `draw` (lines 286–296): append the pointer position to the open path and
stroke; no-op when no stroke is open. -/
def draw (rast : Rasterizer) (st : EngineState) (p : ℚ × ℚ) : EngineState :=
  if st.isDrawing = false then st
  else
    let ctx1 := { st.tempCtx with path := st.tempCtx.path ++ [p] }
    { st with
      tempCtx := ctx1,
      temp := rast ctx1.path ctx1.strokeStyle ctx1.lineWidth ctx1.cap st.temp }

/-- The body of `stopDrawing` when a stroke is open (lines 302–318):
composite the scratch canvas onto the committed canvas at
`globalAlpha = tool.mode === 'eraser' ? 1 : tool.opacity` (the `tool` prop
current at pointer-up), record a history entry, and clear the scratch
canvas and its path. -/
def endStrokeCore (st : EngineState) (tool : DrawingTool) : EngineState :=
  let alpha := if tool.mode = ToolMode.eraser then 1 else tool.opacity
  let newMain := st.main.drawImage st.temp 0 0
                   (st.temp.width : ℚ) (st.temp.height : ℚ) alpha
  let st1 := saveToHistory { st with isDrawing := false, main := newMain }
  { st1 with temp := st1.temp.clearAll, tempCtx := { st1.tempCtx with path := [] } }

/-- `stopDrawing` (lines 298–319): no-op when no stroke is open, otherwise
finalize the stroke. -/
def stopDrawing (st : EngineState) (tool : DrawingTool) : EngineState :=
  if st.isDrawing = false then st else endStrokeCore st tool

/-- The whole component state: the engine plus the current `tool` prop. -/
structure Sys where
  engine : EngineState
  tool : DrawingTool

/-- External events delivered to the component: pointer events, the
imperative-handle calls, a resize, and a change of the `tool` prop. -/
inductive Event where
  | down (p : ℚ × ℚ)
  | move (p : ℚ × ℚ)
  | up
  | undoEv
  | redoEv
  | clearEv
  | loadEv (decoded : Option Surface)
  | resizeEv (w h : ℕ)
  | toolEv (t : DrawingTool)

/-- One event step.  A tool change also runs the `useEffect` on `[tool]`
(lines 152–158), which re-applies the shape-derived cap/join to the scratch
context — and nothing else. -/
def step (rast : Rasterizer) (s : Sys) : Event → Sys
  | .down p => { s with engine := startDrawing rast s.engine s.tool p }
  | .move p => { s with engine := draw rast s.engine p }
  | .up => { s with engine := stopDrawing s.engine s.tool }
  | .undoEv => { s with engine := undo s.engine }
  | .redoEv => { s with engine := redo s.engine }
  | .clearEv => { s with engine := clearCanvas s.engine }
  | .loadEv d => { s with engine := loadImage s.engine d }
  | .resizeEv w h => { s with engine := handleResize s.engine w h s.tool }
  | .toolEv t =>
    { engine := { s.engine with tempCtx := { s.engine.tempCtx with cap := t.shape } },
      tool := t }

/-- Run a list of events. -/
def run (rast : Rasterizer) (s : Sys) (es : List Event) : Sys :=
  es.foldl (step rast) s

/-- The committed surface right after mount: filled opaque white. -/
def initMain (w h : ℕ) : Surface := (Surface.blank w h).fillAll whiteP

/-- The mounted component (the init effect, lines 76–101): committed filled
white, scratch transparent, round caps, and the initial history record. -/
def init (w h : ℕ) (tool : DrawingTool) : Sys :=
  { engine := saveToHistory
      { main := initMain w h,
        temp := Surface.blank w h,
        tempCtx := { strokeStyle := blackP, lineWidth := 1,
                     cap := ToolShape.round, path := [] },
        history := [],
        historyStep := 0,
        isDrawing := false },
    tool := tool }

/-- `N` complete strokes (pointer-down then pointer-up) at one point. -/
def strokes (rast : Rasterizer) (p : ℚ × ℚ) : ℕ → Sys → Sys
  | 0, s => s
  | n + 1, s => strokes rast p n (step rast (step rast s (.down p)) .up)

/-- A concrete brush tool for concrete runs: opaque black, width 5. -/
def brushTool : DrawingTool :=
  ⟨blackP, 5, ToolMode.brush, ToolShape.round, 1⟩

/-- The brush tool at configured opacity `1/2`. -/
def halfTool : DrawingTool :=
  { brushTool with opacity := qdiv 1 2 }

/-- A concrete eraser tool with a configured opacity of `1/2`. -/
def eraserTool : DrawingTool :=
  ⟨blackP, 5, ToolMode.eraser, ToolShape.round, qdiv 1 2⟩

/-- A concrete 200 × 100 all-black decoded image. -/
def img200x100 : Surface := ⟨200, 100, fun _ _ => blackP⟩

/-- A concrete engine state whose history already holds 51 entries with the
cursor at the end, for exercising the eviction path. -/
def stBig : EngineState :=
  ⟨Surface.blank 1 1, Surface.blank 1 1, ⟨blackP, 1, ToolShape.round, []⟩,
   List.replicate 51 (Surface.blank 1 1), 50, false⟩

/-!
## Theorems

Bridge lemmas for the kernel-reducible rational operations, general lemmas
about the surface and history operations, and then one theorem per claim.
-/

theorem qadd_eq (a b : ℚ) : qadd a b = a + b := by
  unfold qadd
  conv_rhs => rw [← Rat.num_divInt_den a, ← Rat.num_divInt_den b]
  rw [Rat.divInt_add_divInt _ _ (by exact_mod_cast a.den_nz) (by exact_mod_cast b.den_nz)]

theorem qsub_eq (a b : ℚ) : qsub a b = a - b := by
  unfold qsub
  conv_rhs => rw [← Rat.num_divInt_den a, ← Rat.num_divInt_den b]
  rw [Rat.divInt_sub_divInt _ _ (by exact_mod_cast a.den_nz) (by exact_mod_cast b.den_nz)]

theorem qmul_eq (a b : ℚ) : qmul a b = a * b := by
  unfold qmul
  conv_rhs => rw [← Rat.num_divInt_den a, ← Rat.num_divInt_den b]
  rw [Rat.divInt_mul_divInt']

theorem qdiv_eq (a b : ℚ) : qdiv a b = a / b := by
  unfold qdiv
  rw [Rat.div_def']

theorem qle_iff (a b : ℚ) : qle a b ↔ a ≤ b := Rat.le_def.symm

theorem qlt_iff (a b : ℚ) : qlt a b ↔ a < b := Rat.lt_def.symm

theorem qfloor_eq (a : ℚ) : qfloor a = ⌊a⌋ := (Rat.floor_def).symm

theorem pixEq_refl (s : Surface) : s.pixEq s := ⟨rfl, rfl, fun _ _ _ _ => rfl⟩

theorem pixEq_symm {s t : Surface} (h : s.pixEq t) : t.pixEq s := by
  obtain ⟨hw, hh, hp⟩ := h
  exact ⟨hw.symm, hh.symm, fun x hx y hy =>
    (hp x (hw ▸ hx) y (hh ▸ hy)).symm⟩

theorem pixEq_trans {s t u : Surface} (h1 : s.pixEq t) (h2 : t.pixEq u) : s.pixEq u := by
  obtain ⟨hw1, hh1, hp1⟩ := h1
  obtain ⟨hw2, hh2, hp2⟩ := h2
  exact ⟨hw1.trans hw2, hh1.trans hh2, fun x hx y hy =>
    (hp1 x hx y hy).trans (hp2 x (hw1 ▸ hx) y (hh1 ▸ hy))⟩

theorem fillAll_width (s : Surface) (c : Pixel) : (s.fillAll c).width = s.width := rfl

theorem fillAll_height (s : Surface) (c : Pixel) : (s.fillAll c).height = s.height := rfl

theorem fillAll_pix_in (s : Surface) (c : Pixel) {x y : ℕ}
    (hx : x < s.width) (hy : y < s.height) : (s.fillAll c).pix x y = c := by
  simp [Surface.fillAll, hx, hy]

theorem clearAll_pix_in (s : Surface) {x y : ℕ}
    (hx : x < s.width) (hy : y < s.height) : s.clearAll.pix x y = clearP := by
  simp [Surface.clearAll, hx, hy]

theorem drawImage_width (dst src : Surface) (ox oy dw dh alpha : ℚ) :
    (dst.drawImage src ox oy dw dh alpha).width = dst.width := rfl

theorem drawImage_height (dst src : Surface) (ox oy dw dh alpha : ℚ) :
    (dst.drawImage src ox oy dw dh alpha).height = dst.height := rfl

theorem applyHistoryItem_width (cur item : Surface) :
    (applyHistoryItem cur item).width = cur.width := by
  unfold applyHistoryItem
  split <;> rfl

theorem applyHistoryItem_height (cur item : Surface) :
    (applyHistoryItem cur item).height = cur.height := by
  unfold applyHistoryItem
  split <;> rfl

theorem covers_of_lt (s : Surface) {w h x y : ℕ} (hxs : x < s.width)
    (hys : y < s.height) (hx : x < w) (hy : y < h) :
    covers s 0 0 (w : ℚ) (h : ℚ) x y := by
  refine ⟨hxs, hys, ?_, ?_, ?_, ?_⟩
  · rw [qle_iff]
    positivity
  · rw [qlt_iff, qadd_eq, zero_add]
    exact_mod_cast hx
  · rw [qle_iff]
    positivity
  · rw [qlt_iff, qadd_eq, zero_add]
    exact_mod_cast hy

theorem drawImage_pix_covered {dst src : Surface} {ox oy dw dh alpha : ℚ}
    {x y : ℕ} (h : covers dst ox oy dw dh x y) :
    (dst.drawImage src ox oy dw dh alpha).pix x y
      = blendPix alpha
          (src.pix (sampleCoord x ox dw src.width) (sampleCoord y oy dh src.height))
          (dst.pix x y) := by
  simp only [Surface.drawImage, if_pos h]

theorem drawImage_pix_not_covered {dst src : Surface} {ox oy dw dh alpha : ℚ}
    {x y : ℕ} (h : ¬ covers dst ox oy dw dh x y) :
    (dst.drawImage src ox oy dw dh alpha).pix x y = dst.pix x y := by
  simp only [Surface.drawImage, if_neg h]

theorem putImageData_pix_in {dst item : Surface} (hw : item.width = dst.width)
    (hh : item.height = dst.height) {x y : ℕ} (hx : x < dst.width)
    (hy : y < dst.height) : (dst.putImageData item).pix x y = item.pix x y := by
  simp only [Surface.putImageData]
  rw [if_pos ⟨hw ▸ hx, hh ▸ hy, hx, hy⟩]

theorem applyHistoryItem_congr (c1 c2 : Surface) (item : Surface)
    (hw : c1.width = c2.width) (hh : c1.height = c2.height) :
    (applyHistoryItem c1 item).pixEq (applyHistoryItem c2 item) := by
  unfold applyHistoryItem
  by_cases hdim : item.width = c1.width ∧ item.height = c1.height
  · rw [if_pos hdim, if_pos (by rw [← hw, ← hh]; exact hdim)]
    refine ⟨hw, hh, fun x hx y hy => ?_⟩
    rw [putImageData_pix_in hdim.1 hdim.2 hx hy,
        putImageData_pix_in (hw ▸ hdim.1) (hh ▸ hdim.2) (hw ▸ hx) (hh ▸ hy)]
  · rw [if_neg hdim, if_neg (by rw [← hw, ← hh]; exact hdim)]
    refine ⟨hw, hh, fun x hx y hy => ?_⟩
    have hx1 : x < c1.width := hx
    have hy1 : y < c1.height := hy
    have hx2 : x < c2.width := hw ▸ hx1
    have hy2 : y < c2.height := hh ▸ hy1
    rw [drawImage_pix_covered (covers_of_lt (c1.fillAll whiteP) hx1 hy1 hx1 hy1),
        drawImage_pix_covered (covers_of_lt (c2.fillAll whiteP) hx2 hy2 hx2 hy2)]
    rw [fillAll_pix_in _ _ hx1 hy1, fillAll_pix_in _ _ hx2 hy2, hw, hh]

theorem applyHistoryItem_self {cur item : Surface} (hw : item.width = cur.width)
    (hh : item.height = cur.height) : (applyHistoryItem cur item).pixEq item := by
  unfold applyHistoryItem
  rw [if_pos ⟨hw, hh⟩]
  refine ⟨hw.symm, hh.symm, fun x hx y hy => ?_⟩
  exact putImageData_pix_in hw hh hx hy

theorem saveToHistory_main (st : EngineState) : (saveToHistory st).main = st.main := by
  simp only [saveToHistory]
  split <;> rfl

theorem saveToHistory_temp (st : EngineState) : (saveToHistory st).temp = st.temp := by
  simp only [saveToHistory]
  split <;> rfl

theorem saveToHistory_tempCtx (st : EngineState) :
    (saveToHistory st).tempCtx = st.tempCtx := by
  simp only [saveToHistory]
  split <;> rfl

theorem saveToHistory_isDrawing (st : EngineState) :
    (saveToHistory st).isDrawing = st.isDrawing := by
  simp only [saveToHistory]
  split <;> rfl

theorem recordArr_pos (st : EngineState) : 0 < (recordArr st).length := by
  simp only [recordArr, List.length_append, List.length_cons, List.length_nil]
  omega

theorem saveToHistory_step_last (st : EngineState) :
    (saveToHistory st).historyStep + 1 = (saveToHistory st).history.length := by
  have hp := recordArr_pos st
  simp only [saveToHistory]
  split <;> simp only [List.length_drop] <;> omega

theorem lookup_lt {α : Type} {l : List α} {n : ℕ} {a : α} (h : l[n]? = some a) :
    n < l.length := by
  by_contra hn
  rw [List.getElem?_eq_none (Nat.le_of_not_lt hn)] at h
  exact Option.noConfusion h

theorem recordArr_facts (st : EngineState) (e : Surface)
    (hcur : st.history[st.historyStep]? = some e) :
    (recordArr st).length = st.historyStep + 2 ∧
    (recordArr st)[st.historyStep]? = some e ∧
    (recordArr st)[st.historyStep + 1]? = some st.main := by
  have hlt : st.historyStep < st.history.length := lookup_lt hcur
  have h0len : (if st.historyStep + 1 < st.history.length then
      st.history.take (st.historyStep + 1) else st.history).length
        = st.historyStep + 1 := by
    split
    · rw [List.length_take]
      omega
    · omega
  have h0cur : (if st.historyStep + 1 < st.history.length then
      st.history.take (st.historyStep + 1) else st.history)[st.historyStep]?
        = some e := by
    split
    · rw [List.getElem?_take_of_lt (Nat.lt_succ_self st.historyStep)]
      exact hcur
    · exact hcur
  refine ⟨?_, ?_, ?_⟩
  · simp only [recordArr, List.length_append, List.length_cons, List.length_nil, h0len]
  · rw [recordArr, List.getElem?_append_left (by omega)]
    exact h0cur
  · rw [recordArr]
    have hcc := List.getElem?_concat_length (if st.historyStep + 1 < st.history.length
      then st.history.take (st.historyStep + 1) else st.history) st.main
    rw [h0len] at hcc
    exact hcc

theorem saveToHistory_facts (st : EngineState) (e : Surface)
    (hcur : st.history[st.historyStep]? = some e) :
    (saveToHistory st).history[(saveToHistory st).historyStep]? = some st.main ∧
    (saveToHistory st).history[(saveToHistory st).historyStep - 1]? = some e ∧
    0 < (saveToHistory st).historyStep := by
  obtain ⟨hlen, hcur1, htop1⟩ := recordArr_facts st e hcur
  simp only [saveToHistory]
  split
  · rename_i hcap
    refine ⟨?_, ?_, ?_⟩
    · rw [List.getElem?_drop]
      have harg : 1 + ((recordArr st).length - 1 - 1) = st.historyStep + 1 := by omega
      rw [harg]
      exact htop1
    · rw [List.getElem?_drop]
      have harg : 1 + ((recordArr st).length - 1 - 1 - 1) = st.historyStep := by omega
      rw [harg]
      exact hcur1
    · show 0 < (recordArr st).length - 1 - 1
      omega
  · refine ⟨?_, ?_, ?_⟩
    · have harg : (recordArr st).length - 1 = st.historyStep + 1 := by omega
      rw [harg]
      exact htop1
    · have harg : (recordArr st).length - 1 - 1 = st.historyStep := by omega
      rw [harg]
      exact hcur1
    · show 0 < (recordArr st).length - 1
      omega

theorem undo_eq (st : EngineState) (e : Surface) (h0 : 0 < st.historyStep)
    (he : st.history[st.historyStep - 1]? = some e) :
    undo st = { st with historyStep := st.historyStep - 1,
                        main := applyHistoryItem st.main e } := by
  unfold undo
  rw [if_pos h0, he]

theorem redo_eq (st : EngineState) (e : Surface)
    (h0 : st.historyStep + 1 < st.history.length)
    (he : st.history[st.historyStep + 1]? = some e) :
    redo st = { st with historyStep := st.historyStep + 1,
                        main := applyHistoryItem st.main e } := by
  unfold redo
  rw [if_pos h0, he]

theorem redo_noop (st : EngineState) (h : st.history.length ≤ st.historyStep + 1) :
    redo st = st := by
  unfold redo
  rw [if_neg (by omega)]

theorem stopDrawing_eq (st : EngineState) (tool : DrawingTool)
    (hd : st.isDrawing = true) :
    stopDrawing st tool = endStrokeCore st tool := by
  unfold stopDrawing
  rw [hd, if_neg (fun h => Bool.noConfusion h)]

theorem stopDrawing_not_drawing (st : EngineState) (tool : DrawingTool)
    (hd : st.isDrawing = false) :
    stopDrawing st tool = st := by
  unfold stopDrawing
  rw [hd, if_pos rfl]

theorem endStrokeCore_main (st : EngineState) (tool : DrawingTool) :
    (endStrokeCore st tool).main
      = st.main.drawImage st.temp 0 0 (st.temp.width : ℚ) (st.temp.height : ℚ)
          (if tool.mode = ToolMode.eraser then 1 else tool.opacity) := by
  simp only [endStrokeCore, saveToHistory_main]

theorem endStrokeCore_temp (st : EngineState) (tool : DrawingTool) :
    (endStrokeCore st tool).temp = st.temp.clearAll := by
  simp only [endStrokeCore, saveToHistory_temp]

theorem endStrokeCore_isDrawing (st : EngineState) (tool : DrawingTool) :
    (endStrokeCore st tool).isDrawing = false := by
  simp only [endStrokeCore, saveToHistory_isDrawing]

theorem endStrokeCore_step_last (st : EngineState) (tool : DrawingTool) :
    (endStrokeCore st tool).historyStep + 1 = (endStrokeCore st tool).history.length := by
  simp only [endStrokeCore]
  exact saveToHistory_step_last _

theorem startDrawing_isDrawing (rast : Rasterizer) (st : EngineState)
    (tool : DrawingTool) (p : ℚ × ℚ) :
    (startDrawing rast st tool p).isDrawing = true := rfl

theorem saveToHistory_top (st : EngineState) :
    (saveToHistory st).history[(saveToHistory st).historyStep]? = some st.main := by
  have h0 : (recordArr st)[(recordArr st).length - 1]? = some st.main := by
    unfold recordArr
    have hl : ((if st.historyStep + 1 < st.history.length then
        st.history.take (st.historyStep + 1) else st.history) ++ [st.main]).length - 1
          = (if st.historyStep + 1 < st.history.length then
        st.history.take (st.historyStep + 1) else st.history).length := by
      simp [List.length_append]
    rw [hl]
    exact List.getElem?_concat_length _ st.main
  simp only [saveToHistory]
  split
  · rename_i hcap
    rw [List.getElem?_drop]
    have harg : 1 + ((recordArr st).length - 1 - 1) = (recordArr st).length - 1 := by
      omega
    rw [harg]
    exact h0
  · exact h0

/-- C10: `exportImage` returns the PNG encoding of the committed surface
only, and leaves the whole engine state — committed pixels, scratch pixels,
history entries and cursor — unchanged, recording nothing. -/
theorem c10_export_pure (st : EngineState) :
    (exportImage st).1 = st ∧ (exportImage st).2 = st.main :=
  ⟨rfl, rfl⟩

/-- C7: restoring a history snapshot whose dimensions differ from the
current surface never fails: the surface keeps its dimensions, and every
in-bounds pixel is the snapshot sampled by the stretch-to-full-bounds
rescale composited over the white background fill. -/
theorem c7_restore_mismatch (cur item : Surface)
    (hdim : ¬ (item.width = cur.width ∧ item.height = cur.height)) :
    (applyHistoryItem cur item).width = cur.width ∧
    (applyHistoryItem cur item).height = cur.height ∧
    ∀ x, x < cur.width → ∀ y, y < cur.height →
      (applyHistoryItem cur item).pix x y
        = blendPix 1 (item.pix (sampleCoord x 0 (cur.width : ℚ) item.width)
            (sampleCoord y 0 (cur.height : ℚ) item.height)) whiteP := by
  refine ⟨applyHistoryItem_width cur item, applyHistoryItem_height cur item,
    fun x hx y hy => ?_⟩
  unfold applyHistoryItem
  rw [if_neg hdim]
  have hx1 : x < (cur.fillAll whiteP).width := hx
  have hy1 : y < (cur.fillAll whiteP).height := hy
  rw [drawImage_pix_covered (covers_of_lt (cur.fillAll whiteP) hx1 hy1 hx hy)]
  rw [fillAll_pix_in _ _ hx hy]

theorem c7_restore_mismatch_witness :
    (¬ ((3 : ℕ) = 2 ∧ (1 : ℕ) = 1)) ∧
    ((applyHistoryItem (Surface.blank 2 1) ⟨3, 1, fun _ _ => blackP⟩).width = 2 ∧
     (applyHistoryItem (Surface.blank 2 1) ⟨3, 1, fun _ _ => blackP⟩).height = 1 ∧
     ∀ x, x < 2 → ∀ y, y < 1 →
       (applyHistoryItem (Surface.blank 2 1) ⟨3, 1, fun _ _ => blackP⟩).pix x y
         = blendPix 1 ((⟨3, 1, fun _ _ => blackP⟩ : Surface).pix
             (sampleCoord x 0 ((2 : ℕ) : ℚ) 3) (sampleCoord y 0 ((1 : ℕ) : ℚ) 1))
             whiteP) :=
  ⟨by decide, c7_restore_mismatch (Surface.blank 2 1) ⟨3, 1, fun _ _ => blackP⟩
    (by decide)⟩

/-- C6: resizing to the current dimensions is a no-op; resizing never
touches the history entries or the cursor; on a real resize both surfaces
get the new dimensions and a subsequent `exportImage` returns the white
background overdrawn with the pre-resize committed content stretched to
the full new bounds. -/
theorem c6_resize (st : EngineState) (w h : ℕ) (tool : DrawingTool) :
    (st.main.width = w ∧ st.main.height = h → handleResize st w h tool = st) ∧
    (handleResize st w h tool).history = st.history ∧
    (handleResize st w h tool).historyStep = st.historyStep ∧
    (¬ (st.main.width = w ∧ st.main.height = h) →
      (exportImage (handleResize st w h tool)).2
          = ((Surface.blank w h).fillAll whiteP).drawImage st.main 0 0
              (w : ℚ) (h : ℚ) 1 ∧
      (handleResize st w h tool).temp = Surface.blank w h) := by
  refine ⟨fun hdim => ?_, ?_, ?_, fun hdim => ?_⟩
  · unfold handleResize
    rw [if_pos hdim]
  · unfold handleResize
    split <;> rfl
  · unfold handleResize
    split <;> rfl
  · unfold handleResize
    rw [if_neg hdim]
    exact ⟨rfl, rfl⟩

theorem c6_resize_witness :
    (((init 2 1 brushTool).engine.main.width = 2 ∧
      (init 2 1 brushTool).engine.main.height = 1 →
        handleResize (init 2 1 brushTool).engine 2 1 brushTool
          = (init 2 1 brushTool).engine) ∧
     (handleResize (init 2 1 brushTool).engine 2 1 brushTool).history
        = (init 2 1 brushTool).engine.history ∧
     (handleResize (init 2 1 brushTool).engine 2 1 brushTool).historyStep
        = (init 2 1 brushTool).engine.historyStep ∧
     (¬ ((init 2 1 brushTool).engine.main.width = 2 ∧
         (init 2 1 brushTool).engine.main.height = 1) →
       (exportImage (handleResize (init 2 1 brushTool).engine 2 1 brushTool)).2
           = ((Surface.blank 2 1).fillAll whiteP).drawImage
               (init 2 1 brushTool).engine.main 0 0 ((2 : ℕ) : ℚ) ((1 : ℕ) : ℚ) 1 ∧
       (handleResize (init 2 1 brushTool).engine 2 1 brushTool).temp
           = Surface.blank 2 1)) ∧
    ((init 3 1 brushTool).engine.main.width = 3 ∧
     ¬ ((init 3 1 brushTool).engine.main.width = 2 ∧
        (init 3 1 brushTool).engine.main.height = 1)) :=
  ⟨c6_resize (init 2 1 brushTool).engine 2 1 brushTool, by decide, by decide⟩

/-- C4: `stopDrawing` is a no-op when no stroke is open; otherwise it
composites the scratch surface onto the committed surface at global alpha
`tool.opacity` for a brush and exactly `1` for an eraser (whatever the
configured opacity), clears the scratch surface to fully transparent, and
pushes a history snapshot of the composited committed surface, with the
cursor at the last index. -/
theorem c4_endStroke (st : EngineState) (tool : DrawingTool) :
    (st.isDrawing = false → stopDrawing st tool = st) ∧
    (st.isDrawing = true →
      (tool.mode = ToolMode.brush →
        (stopDrawing st tool).main
          = st.main.drawImage st.temp 0 0 (st.temp.width : ℚ) (st.temp.height : ℚ)
              tool.opacity) ∧
      (tool.mode = ToolMode.eraser →
        (stopDrawing st tool).main
          = st.main.drawImage st.temp 0 0 (st.temp.width : ℚ) (st.temp.height : ℚ) 1) ∧
      (∀ x, x < st.temp.width → ∀ y, y < st.temp.height →
        (stopDrawing st tool).temp.pix x y = clearP) ∧
      (stopDrawing st tool).history[(stopDrawing st tool).historyStep]?
          = some ((stopDrawing st tool).main) ∧
      (stopDrawing st tool).historyStep + 1 = (stopDrawing st tool).history.length) := by
  refine ⟨fun hd => stopDrawing_not_drawing st tool hd, fun hd => ?_⟩
  rw [stopDrawing_eq st tool hd]
  refine ⟨fun hm => ?_, fun hm => ?_, fun x hx y hy => ?_, ?_, ?_⟩
  · rw [endStrokeCore_main]
    have : (if tool.mode = ToolMode.eraser then (1 : ℚ) else tool.opacity)
        = tool.opacity := by
      rw [if_neg (by rw [hm]; exact fun hh => ToolMode.noConfusion hh)]
    rw [this]
  · rw [endStrokeCore_main]
    rw [if_pos hm]
  · rw [endStrokeCore_temp]
    exact clearAll_pix_in st.temp hx hy
  · show (saveToHistory _).history[(saveToHistory _).historyStep]?
        = some ((endStrokeCore st tool).main)
    rw [endStrokeCore_main]
    exact saveToHistory_top _
  · exact saveToHistory_step_last _

theorem c4_endStroke_witness :
    ((init 1 1 brushTool).engine.isDrawing = false ∧
     stopDrawing (init 1 1 brushTool).engine brushTool = (init 1 1 brushTool).engine) ∧
    ((run dotR (init 1 1 eraserTool) [.down (0, 0)]).engine.isDrawing = true ∧
     eraserTool.mode = ToolMode.eraser ∧
     (stopDrawing (run dotR (init 1 1 eraserTool) [.down (0, 0)]).engine
        eraserTool).main
       = (run dotR (init 1 1 eraserTool) [.down (0, 0)]).engine.main.drawImage
           (run dotR (init 1 1 eraserTool) [.down (0, 0)]).engine.temp 0 0
           (((run dotR (init 1 1 eraserTool) [.down (0, 0)]).engine.temp.width : ℕ) : ℚ)
           (((run dotR (init 1 1 eraserTool) [.down (0, 0)]).engine.temp.height : ℕ) : ℚ)
           1 ∧
     (stopDrawing (run dotR (init 1 1 eraserTool) [.down (0, 0)]).engine
        eraserTool).historyStep + 1
       = (stopDrawing (run dotR (init 1 1 eraserTool) [.down (0, 0)]).engine
            eraserTool).history.length) :=
  ⟨⟨rfl, (c4_endStroke (init 1 1 brushTool).engine brushTool).1 rfl⟩,
   ⟨rfl, rfl,
    ((c4_endStroke (run dotR (init 1 1 eraserTool) [.down (0, 0)]).engine
        eraserTool).2 rfl).2.1 rfl,
    ((c4_endStroke (run dotR (init 1 1 eraserTool) [.down (0, 0)]).engine
        eraserTool).2 rfl).2.2.2.2⟩⟩

/-- C2: when a history entry is recorded while the cursor is mid-stack,
the entries after the cursor are discarded before the snapshot is appended
and the cursor moves to the last index; consequently `redo()` right after
an `undo()` followed by a new completed stroke is a no-op. -/
theorem c2_branch_destruction (rast : Rasterizer) (st : EngineState)
    (tool : DrawingTool) (p : ℚ × ℚ)
    (hmid : st.historyStep + 1 < st.history.length)
    (hcap : st.history.length ≤ 50) :
    (saveToHistory st).history
        = st.history.take (st.historyStep + 1) ++ [st.main] ∧
    (saveToHistory st).historyStep = (saveToHistory st).history.length - 1 ∧
    redo (stopDrawing (startDrawing rast (undo st) tool p) tool)
        = stopDrawing (startDrawing rast (undo st) tool p) tool := by
  have hrA : recordArr st = st.history.take (st.historyStep + 1) ++ [st.main] := by
    unfold recordArr
    rw [if_pos hmid]
  have hrlen : (recordArr st).length = st.historyStep + 2 := by
    rw [hrA]
    simp only [List.length_append, List.length_take, List.length_cons,
      List.length_nil]
    omega
  refine ⟨?_, ?_, ?_⟩
  · simp only [saveToHistory]
    rw [if_neg (by omega)]
    exact hrA
  · have := saveToHistory_step_last st
    omega
  · rw [stopDrawing_eq _ tool (startDrawing_isDrawing rast (undo st) tool p)]
    refine redo_noop _ ?_
    have := endStrokeCore_step_last (startDrawing rast (undo st) tool p) tool
    omega

theorem c2_branch_destruction_witness :
    ((run dotR (init 1 1 brushTool)
        [.down (0, 0), .up, .undoEv]).engine.historyStep + 1
      < (run dotR (init 1 1 brushTool)
          [.down (0, 0), .up, .undoEv]).engine.history.length) ∧
    ((run dotR (init 1 1 brushTool)
        [.down (0, 0), .up, .undoEv]).engine.history.length ≤ 50) ∧
    ((saveToHistory (run dotR (init 1 1 brushTool)
        [.down (0, 0), .up, .undoEv]).engine).history
      = (run dotR (init 1 1 brushTool)
          [.down (0, 0), .up, .undoEv]).engine.history.take
            ((run dotR (init 1 1 brushTool)
              [.down (0, 0), .up, .undoEv]).engine.historyStep + 1)
        ++ [(run dotR (init 1 1 brushTool)
              [.down (0, 0), .up, .undoEv]).engine.main] ∧
     (saveToHistory (run dotR (init 1 1 brushTool)
        [.down (0, 0), .up, .undoEv]).engine).historyStep
      = (saveToHistory (run dotR (init 1 1 brushTool)
          [.down (0, 0), .up, .undoEv]).engine).history.length - 1 ∧
     redo (stopDrawing (startDrawing dotR
        (undo (run dotR (init 1 1 brushTool)
          [.down (0, 0), .up, .undoEv]).engine) brushTool (0, 0)) brushTool)
      = stopDrawing (startDrawing dotR
          (undo (run dotR (init 1 1 brushTool)
            [.down (0, 0), .up, .undoEv]).engine) brushTool (0, 0)) brushTool) :=
  ⟨by decide, by decide,
   c2_branch_destruction dotR
     (run dotR (init 1 1 brushTool) [.down (0, 0), .up, .undoEv]).engine
     brushTool (0, 0) (by decide) (by decide)⟩

theorem saveToHistory_length_of_last (st : EngineState)
    (hlast : st.historyStep + 1 = st.history.length)
    (hcap : st.history.length ≤ 50) :
    (saveToHistory st).history.length = min (st.history.length + 1) 50 := by
  have hrec : (recordArr st).length = st.history.length + 1 := by
    unfold recordArr
    rw [if_neg (by omega)]
    simp [List.length_append]
  simp only [saveToHistory]
  split <;> simp only [List.length_drop] <;> omega

theorem endStrokeCore_length_of_last (st : EngineState) (tool : DrawingTool)
    (hlast : st.historyStep + 1 = st.history.length)
    (hcap : st.history.length ≤ 50) :
    (endStrokeCore st tool).history.length = min (st.history.length + 1) 50 := by
  simp only [endStrokeCore]
  exact saveToHistory_length_of_last _ hlast hcap

theorem strokeOnce_hist (rast : Rasterizer) (p : ℚ × ℚ) (s : Sys)
    (hlast : s.engine.historyStep + 1 = s.engine.history.length)
    (hcap : s.engine.history.length ≤ 50) :
    (step rast (step rast s (.down p)) .up).engine.history.length
        = min (s.engine.history.length + 1) 50 ∧
    (step rast (step rast s (.down p)) .up).engine.historyStep + 1
        = (step rast (step rast s (.down p)) .up).engine.history.length := by
  have hup : (step rast (step rast s (.down p)) .up).engine
      = endStrokeCore (step rast s (.down p)).engine (step rast s (.down p)).tool :=
    stopDrawing_eq (step rast s (.down p)).engine (step rast s (.down p)).tool rfl
  rw [hup]
  exact ⟨endStrokeCore_length_of_last _ _ hlast hcap, endStrokeCore_step_last _ _⟩

theorem strokes_hist (rast : Rasterizer) (p : ℚ × ℚ) (N : ℕ) : ∀ s : Sys,
    s.engine.historyStep + 1 = s.engine.history.length →
    s.engine.history.length ≤ 50 →
    (strokes rast p N s).engine.history.length
        = min (s.engine.history.length + N) 50 ∧
    (strokes rast p N s).engine.historyStep + 1
        = (strokes rast p N s).engine.history.length := by
  induction N with
  | zero =>
    intro s h1 h2
    simp only [strokes]
    exact ⟨by omega, h1⟩
  | succ n ih =>
    intro s h1 h2
    obtain ⟨l1, l2⟩ := strokeOnce_hist rast p s h1 h2
    have hle : (step rast (step rast s (.down p)) .up).engine.history.length ≤ 50 := by
      omega
    obtain ⟨m1, m2⟩ := ih (step rast (step rast s (.down p)) .up) l2 hle
    simp only [strokes]
    refine ⟨?_, m2⟩
    rw [m1, l1]
    omega

/-- C3: the history is bounded at 50 entries — on a record, if the appended
sequence exceeds 50 the oldest entry is evicted and the cursor decremented;
after `N` complete strokes from the freshly initialised surface the cursor
is `N` and the length `N + 1` while `N + 1 ≤ 50`, and from then on the
length stays at 50 with the cursor at the last index. -/
theorem c3_history_cap (rast : Rasterizer) (p : ℚ × ℚ) (w h : ℕ)
    (t : DrawingTool) (N : ℕ) :
    (∀ st : EngineState, 50 < (recordArr st).length →
        saveToHistory st
          = { st with history := (recordArr st).drop 1,
                      historyStep := (recordArr st).length - 2 }) ∧
    (N + 1 ≤ 50 →
        (strokes rast p N (init w h t)).engine.historyStep = N ∧
        (strokes rast p N (init w h t)).engine.history.length = N + 1) ∧
    (50 ≤ N + 1 →
        (strokes rast p N (init w h t)).engine.history.length = 50 ∧
        (strokes rast p N (init w h t)).engine.historyStep = 49) := by
  have hinit1 : (init w h t).engine.historyStep + 1
      = (init w h t).engine.history.length := rfl
  have hinit2 : (init w h t).engine.history.length ≤ 50 := by
    show 1 ≤ 50
    omega
  obtain ⟨hl, hs⟩ := strokes_hist rast p N (init w h t) hinit1 hinit2
  have hone : (init w h t).engine.history.length = 1 := rfl
  rw [hone] at hl
  refine ⟨fun st hcap => ?_, fun hN => ⟨by omega, by omega⟩,
    fun hN => ⟨by omega, by omega⟩⟩
  simp only [saveToHistory]
  rw [if_pos hcap]
  rfl

theorem c3_history_cap_witness :
    (50 < (recordArr stBig).length ∧
     saveToHistory stBig
       = { stBig with history := (recordArr stBig).drop 1,
                      historyStep := (recordArr stBig).length - 2 }) ∧
    (2 + 1 ≤ 50 ∧
     (strokes dotR (0, 0) 2 (init 1 1 brushTool)).engine.historyStep = 2 ∧
     (strokes dotR (0, 0) 2 (init 1 1 brushTool)).engine.history.length = 2 + 1) ∧
    (50 ≤ 51 + 1 ∧
     (strokes dotR (0, 0) 51 (init 1 1 brushTool)).engine.history.length = 50 ∧
     (strokes dotR (0, 0) 51 (init 1 1 brushTool)).engine.historyStep = 49) :=
  ⟨⟨by decide, (c3_history_cap dotR (0, 0) 1 1 brushTool 0).1 stBig (by decide)⟩,
   ⟨by decide, (c3_history_cap dotR (0, 0) 1 1 brushTool 2).2.1 (by decide)⟩,
   ⟨by decide, (c3_history_cap dotR (0, 0) 1 1 brushTool 51).2.2 (by decide)⟩⟩

theorem clearCanvas_main (st : EngineState) :
    (clearCanvas st).main = st.main.fillAll whiteP := by
  simp only [clearCanvas, saveToHistory_main]

theorem clearCanvas_temp (st : EngineState) :
    (clearCanvas st).temp = st.temp.clearAll := by
  simp only [clearCanvas, saveToHistory_temp]

/-- C1 is false as stated: with two resizes interleaved since the last
history record, `undo()` right after a completed stroke restores the stored
snapshot rescaled once, which differs pixelwise from the committed pixels
immediately before the stroke (a twice-rescaled image); concretely on a 3×1
surface resized to 2×1 and back. -/
theorem c1_undo_redo_counterexample :
    ¬ (step dotR (step dotR (run dotR (init 3 1 brushTool)
          [.down (1, 0), .up, .resizeEv 2 1, .resizeEv 3 1, .down (0, 0)])
        .up) .undoEv).engine.main.pixEq
      (run dotR (init 3 1 brushTool)
          [.down (1, 0), .up, .resizeEv 2 1, .resizeEv 3 1,
           .down (0, 0)]).engine.main := by
  decide

/-- C1 (amended): immediately after a stroke is finalized, `undo()`
restores the committed pixels to the pre-stroke pixels and a following
`redo()` restores the post-stroke pixels, provided the committed surface
agreed pixelwise with the restoration of the current history entry when the
stroke ended — which holds whenever no resize intervened since the last
record; the counterexample shows the unconditional claim fails after two
interleaved resizes. -/
theorem c1_undo_redo_amended (st : EngineState) (tool : DrawingTool) (e : Surface)
    (hd : st.isDrawing = true)
    (hcur : st.history[st.historyStep]? = some e)
    (hsync : st.main.pixEq (applyHistoryItem st.main e)) :
    (undo (stopDrawing st tool)).main.pixEq st.main ∧
    (redo (undo (stopDrawing st tool))).main.pixEq (stopDrawing st tool).main := by
  rw [stopDrawing_eq st tool hd]
  have hfacts := saveToHistory_facts
    { st with
      isDrawing := false,
      main := st.main.drawImage st.temp 0 0 (st.temp.width : ℚ) (st.temp.height : ℚ)
          (if tool.mode = ToolMode.eraser then 1 else tool.opacity) }
    e hcur
  have hh : (endStrokeCore st tool).history
      = (saveToHistory
          { st with
            isDrawing := false,
            main := st.main.drawImage st.temp 0 0 (st.temp.width : ℚ)
                (st.temp.height : ℚ)
                (if tool.mode = ToolMode.eraser then 1 else tool.opacity) }).history := by
    simp only [endStrokeCore]
  have hs : (endStrokeCore st tool).historyStep
      = (saveToHistory
          { st with
            isDrawing := false,
            main := st.main.drawImage st.temp 0 0 (st.temp.width : ℚ)
                (st.temp.height : ℚ)
                (if tool.mode = ToolMode.eraser then 1 else tool.opacity) }).historyStep := by
    simp only [endStrokeCore]
  have htop : (endStrokeCore st tool).history[(endStrokeCore st tool).historyStep]?
      = some ((endStrokeCore st tool).main) := by
    rw [hh, hs, endStrokeCore_main]
    exact hfacts.1
  have hprev : (endStrokeCore st tool).history[(endStrokeCore st tool).historyStep - 1]?
      = some e := by
    rw [hh, hs]
    exact hfacts.2.1
  have h0 : 0 < (endStrokeCore st tool).historyStep := by
    rw [hs]
    exact hfacts.2.2
  have hundo : undo (endStrokeCore st tool)
      = { endStrokeCore st tool with
          historyStep := (endStrokeCore st tool).historyStep - 1,
          main := applyHistoryItem ((endStrokeCore st tool).main) e } :=
    undo_eq _ e h0 hprev
  have hured : (undo (endStrokeCore st tool)).main
      = applyHistoryItem ((endStrokeCore st tool).main) e := by
    rw [hundo]
  constructor
  · rw [hured, endStrokeCore_main]
    exact pixEq_trans (applyHistoryItem_congr _ st.main e rfl rfl) (pixEq_symm hsync)
  · have hlast : (endStrokeCore st tool).historyStep + 1
        = (endStrokeCore st tool).history.length := endStrokeCore_step_last st tool
    have h0' : (undo (endStrokeCore st tool)).historyStep + 1
        < (undo (endStrokeCore st tool)).history.length := by
      rw [hundo]
      show (endStrokeCore st tool).historyStep - 1 + 1
          < (endStrokeCore st tool).history.length
      omega
    have he' : (undo (endStrokeCore st tool)).history[
        (undo (endStrokeCore st tool)).historyStep + 1]?
          = some ((endStrokeCore st tool).main) := by
      rw [hundo]
      show (endStrokeCore st tool).history[
          (endStrokeCore st tool).historyStep - 1 + 1]?
            = some ((endStrokeCore st tool).main)
      have harg : (endStrokeCore st tool).historyStep - 1 + 1
          = (endStrokeCore st tool).historyStep := by omega
      rw [harg]
      exact htop
    have hredo : redo (undo (endStrokeCore st tool))
        = { undo (endStrokeCore st tool) with
            historyStep := (undo (endStrokeCore st tool)).historyStep + 1,
            main := applyHistoryItem ((undo (endStrokeCore st tool)).main)
              ((endStrokeCore st tool).main) } :=
      redo_eq _ _ h0' he'
    have hrm : (redo (undo (endStrokeCore st tool))).main
        = applyHistoryItem ((undo (endStrokeCore st tool)).main)
            ((endStrokeCore st tool).main) := by
      rw [hredo]
    rw [hrm, hured]
    exact applyHistoryItem_self
      (applyHistoryItem_width ((endStrokeCore st tool).main) e).symm
      (applyHistoryItem_height ((endStrokeCore st tool).main) e).symm

theorem c1_undo_redo_amended_witness :
    ((run dotR (init 2 1 brushTool) [.down (0, 0)]).engine.isDrawing = true ∧
     (run dotR (init 2 1 brushTool) [.down (0, 0)]).engine.history[
        (run dotR (init 2 1 brushTool) [.down (0, 0)]).engine.historyStep]?
        = some (initMain 2 1) ∧
     (run dotR (init 2 1 brushTool) [.down (0, 0)]).engine.main.pixEq
       (applyHistoryItem (run dotR (init 2 1 brushTool) [.down (0, 0)]).engine.main
         (initMain 2 1))) ∧
    (undo (stopDrawing (run dotR (init 2 1 brushTool) [.down (0, 0)]).engine
        brushTool)).main.pixEq
      (run dotR (init 2 1 brushTool) [.down (0, 0)]).engine.main ∧
    (redo (undo (stopDrawing (run dotR (init 2 1 brushTool) [.down (0, 0)]).engine
        brushTool))).main.pixEq
      (stopDrawing (run dotR (init 2 1 brushTool) [.down (0, 0)]).engine
        brushTool).main :=
  ⟨⟨rfl, rfl, by decide⟩,
   c1_undo_redo_amended (run dotR (init 2 1 brushTool) [.down (0, 0)]).engine
     brushTool (initMain 2 1) rfl rfl (by decide)⟩

/-- C9 is false as stated: after two interleaved resizes since the last
record, `undo()` right after `clearCanvas()` restores the stored snapshot
rescaled once, not the committed pixels immediately before the clear. -/
theorem c9_clear_counterexample :
    ¬ (run dotR (init 3 1 brushTool)
        [.down (1, 0), .up, .resizeEv 2 1, .resizeEv 3 1, .clearEv,
         .undoEv]).engine.main.pixEq
      (run dotR (init 3 1 brushTool)
        [.down (1, 0), .up, .resizeEv 2 1, .resizeEv 3 1]).engine.main := by
  decide

/-- C9 (amended): `clearCanvas()` fills every committed pixel with the
white background, clears the scratch surface, and records a history entry
with the cursor at the last index; a following `undo()` restores the
pre-clear committed pixels provided the committed surface agreed pixelwise
with the restoration of the current history entry — which holds whenever no
resize intervened since the last record; the counterexample shows the
unconditional undo half fails after two interleaved resizes. -/
theorem c9_clear_amended (st : EngineState) (e : Surface)
    (hcur : st.history[st.historyStep]? = some e)
    (hsync : st.main.pixEq (applyHistoryItem st.main e)) :
    ((clearCanvas st).main.width = st.main.width ∧
     (clearCanvas st).main.height = st.main.height ∧
     ∀ x, x < st.main.width → ∀ y, y < st.main.height →
       (clearCanvas st).main.pix x y = whiteP) ∧
    (∀ x, x < st.temp.width → ∀ y, y < st.temp.height →
       (clearCanvas st).temp.pix x y = clearP) ∧
    ((clearCanvas st).history[(clearCanvas st).historyStep]?
        = some ((clearCanvas st).main) ∧
     (clearCanvas st).historyStep + 1 = (clearCanvas st).history.length) ∧
    (undo (clearCanvas st)).main.pixEq st.main := by
  have hfacts := saveToHistory_facts { st with main := st.main.fillAll whiteP } e hcur
  have hh : (clearCanvas st).history
      = (saveToHistory { st with main := st.main.fillAll whiteP }).history := by
    simp only [clearCanvas]
  have hs : (clearCanvas st).historyStep
      = (saveToHistory { st with main := st.main.fillAll whiteP }).historyStep := by
    simp only [clearCanvas]
  refine ⟨⟨?_, ?_, fun x hx y hy => ?_⟩, fun x hx y hy => ?_, ⟨?_, ?_⟩, ?_⟩
  · rw [clearCanvas_main]
    rfl
  · rw [clearCanvas_main]
    rfl
  · rw [clearCanvas_main]
    exact fillAll_pix_in st.main whiteP hx hy
  · rw [clearCanvas_temp]
    exact clearAll_pix_in st.temp hx hy
  · rw [hh, hs, clearCanvas_main]
    exact saveToHistory_top { st with main := st.main.fillAll whiteP }
  · rw [hh, hs]
    exact saveToHistory_step_last { st with main := st.main.fillAll whiteP }
  · have h0 : 0 < (clearCanvas st).historyStep := by
      rw [hs]
      exact hfacts.2.2
    have hprev : (clearCanvas st).history[(clearCanvas st).historyStep - 1]?
        = some e := by
      rw [hh, hs]
      exact hfacts.2.1
    have hundo : undo (clearCanvas st)
        = { clearCanvas st with
            historyStep := (clearCanvas st).historyStep - 1,
            main := applyHistoryItem ((clearCanvas st).main) e } :=
      undo_eq _ e h0 hprev
    have hm : (undo (clearCanvas st)).main
        = applyHistoryItem ((clearCanvas st).main) e := by
      rw [hundo]
    rw [hm, clearCanvas_main]
    exact pixEq_trans (applyHistoryItem_congr _ st.main e rfl rfl) (pixEq_symm hsync)

theorem c9_clear_amended_witness :
    ((init 2 1 brushTool).engine.history[
        (init 2 1 brushTool).engine.historyStep]? = some (initMain 2 1) ∧
     (init 2 1 brushTool).engine.main.pixEq
       (applyHistoryItem (init 2 1 brushTool).engine.main (initMain 2 1))) ∧
    ((∀ x, x < (init 2 1 brushTool).engine.main.width →
        ∀ y, y < (init 2 1 brushTool).engine.main.height →
          (clearCanvas (init 2 1 brushTool).engine).main.pix x y = whiteP) ∧
     (undo (clearCanvas (init 2 1 brushTool).engine)).main.pixEq
       (init 2 1 brushTool).engine.main) :=
  ⟨⟨rfl, by decide⟩,
   ⟨(c9_clear_amended (init 2 1 brushTool).engine (initMain 2 1) rfl
       (by decide)).1.2.2,
    (c9_clear_amended (init 2 1 brushTool).engine (initMain 2 1) rfl
       (by decide)).2.2.2⟩⟩

/-- C5 is false as stated: a tool change delivered between pointer-down and
pointer-up changes the finalized stroke — the opacity used by the composite
is read from the tool current at pointer-up, not the one captured at
pointer-down.  Concretely, dropping the configured opacity from 1 to 1/2
mid-stroke changes the committed pixels, while the claim entails the two
runs end with identical pixels. -/
theorem c5_capture_counterexample :
    ¬ (run dotR (init 1 1 brushTool)
        [.down (0, 0), .toolEv halfTool, .up]).engine.main.pixEq
      (run dotR (init 1 1 brushTool) [.down (0, 0), .up]).engine.main := by
  decide

/-- C5 (amended): the stroke colour and width are captured on the scratch
context at pointer-down and a mid-stroke tool change alters neither them
nor the scratch or committed pixels nor the drawing flag; but the mode and
opacity used by the composite at finalization are read from the tool
current at pointer-up (`stopDrawing` reads `tool.mode` / `tool.opacity`). -/
theorem c5_capture_amended (rast : Rasterizer) (s : Sys) (t t1 : DrawingTool)
    (p : ℚ × ℚ) :
    ((step rast s (.toolEv t)).engine.tempCtx.strokeStyle
        = s.engine.tempCtx.strokeStyle ∧
     (step rast s (.toolEv t)).engine.tempCtx.lineWidth
        = s.engine.tempCtx.lineWidth ∧
     (step rast s (.toolEv t)).engine.temp = s.engine.temp ∧
     (step rast s (.toolEv t)).engine.main = s.engine.main ∧
     (step rast s (.toolEv t)).engine.isDrawing = s.engine.isDrawing) ∧
    ((startDrawing rast s.engine t p).tempCtx.strokeStyle
        = (if t.mode = ToolMode.eraser then whiteP else t.color) ∧
     (startDrawing rast s.engine t p).tempCtx.lineWidth = t.width) ∧
    (s.engine.isDrawing = true →
      (stopDrawing s.engine t1).main
        = s.engine.main.drawImage s.engine.temp 0 0 (s.engine.temp.width : ℚ)
            (s.engine.temp.height : ℚ)
            (if t1.mode = ToolMode.eraser then 1 else t1.opacity)) := by
  refine ⟨⟨rfl, rfl, rfl, rfl, rfl⟩, ⟨rfl, rfl⟩, fun hd => ?_⟩
  rw [stopDrawing_eq _ _ hd]
  exact endStrokeCore_main _ _

theorem c5_capture_amended_witness :
    ((run dotR (init 1 1 brushTool) [.down (0, 0)]).engine.isDrawing = true) ∧
    (stopDrawing (run dotR (init 1 1 brushTool) [.down (0, 0)]).engine
        halfTool).main
      = (run dotR (init 1 1 brushTool) [.down (0, 0)]).engine.main.drawImage
          (run dotR (init 1 1 brushTool) [.down (0, 0)]).engine.temp 0 0
          (((run dotR (init 1 1 brushTool) [.down (0, 0)]).engine.temp.width : ℕ) : ℚ)
          (((run dotR (init 1 1 brushTool) [.down (0, 0)]).engine.temp.height : ℕ) : ℚ)
          (if halfTool.mode = ToolMode.eraser then 1 else halfTool.opacity) :=
  ⟨rfl,
   (c5_capture_amended dotR (run dotR (init 1 1 brushTool) [.down (0, 0)])
      brushTool halfTool (0, 0)).2.2 rfl⟩

theorem fitRect_spec (cw ch iw ih : ℚ) (hcw : 0 < cw) (hch : 0 < ch)
    (hiw : 0 < iw) (hih : 0 < ih) :
    (fitRect cw ch iw ih).2.2.2 * iw = (fitRect cw ch iw ih).2.2.1 * ih ∧
    0 < (fitRect cw ch iw ih).2.2.1 ∧ (fitRect cw ch iw ih).2.2.1 ≤ cw ∧
    0 < (fitRect cw ch iw ih).2.2.2 ∧ (fitRect cw ch iw ih).2.2.2 ≤ ch ∧
    2 * (fitRect cw ch iw ih).1 = cw - (fitRect cw ch iw ih).2.2.1 ∧
    2 * (fitRect cw ch iw ih).2.1 = ch - (fitRect cw ch iw ih).2.2.2 := by
  have hiw0 : iw ≠ 0 := ne_of_gt hiw
  have hih0 : ih ≠ 0 := ne_of_gt hih
  have hch0 : ch ≠ 0 := ne_of_gt hch
  simp only [fitRect]
  split
  · rename_i hlt
    rw [qlt_iff, qdiv_eq, qdiv_eq] at hlt
    simp only [qdiv_eq, qmul_eq, qsub_eq]
    refine ⟨?_, hcw, le_refl cw, ?_, ?_, ?_, ?_⟩
    · rw [div_div_eq_mul_div, div_mul_cancel₀ _ hiw0]
    · positivity
    · rw [div_div_eq_mul_div, div_le_iff hiw]
      have hx := (div_lt_div_iff hch hih).mp hlt
      linarith
    · simp
    · rw [← mul_div_assoc, mul_div_cancel_left₀ _ two_ne_zero]
  · rename_i hge
    rw [qlt_iff, qdiv_eq, qdiv_eq] at hge
    push_neg at hge
    simp only [qdiv_eq, qmul_eq, qsub_eq]
    refine ⟨?_, ?_, ?_, hch, le_refl ch, ?_, ?_⟩
    · rw [mul_comm (ch * (iw / ih)) ih, ← mul_div_assoc,
        mul_comm ih (ch * iw / ih), div_mul_cancel₀ _ hih0]
    · positivity
    · rw [← mul_div_assoc, div_le_iff hih, mul_comm ch iw]
      exact (div_le_div_iff hih hch).mp hge
    · rw [← mul_div_assoc, mul_div_cancel_left₀ _ two_ne_zero]
    · simp

theorem loadImage_main (st : EngineState) (img : Surface) :
    (loadImage st (some img)).main
      = (st.main.fillAll whiteP).drawImage img
          (fitRect (st.main.width : ℚ) (st.main.height : ℚ)
            (img.width : ℚ) (img.height : ℚ)).1
          (fitRect (st.main.width : ℚ) (st.main.height : ℚ)
            (img.width : ℚ) (img.height : ℚ)).2.1
          (fitRect (st.main.width : ℚ) (st.main.height : ℚ)
            (img.width : ℚ) (img.height : ℚ)).2.2.1
          (fitRect (st.main.width : ℚ) (st.main.height : ℚ)
            (img.width : ℚ) (img.height : ℚ)).2.2.2 1 := by
  simp only [loadImage, saveToHistory_main]

theorem loadImage_history (st : EngineState) (img : Surface) :
    (loadImage st (some img)).history
      = (saveToHistory
          { st with main := ((st.main.fillAll whiteP).drawImage img
              (fitRect (st.main.width : ℚ) (st.main.height : ℚ)
                (img.width : ℚ) (img.height : ℚ)).1
              (fitRect (st.main.width : ℚ) (st.main.height : ℚ)
                (img.width : ℚ) (img.height : ℚ)).2.1
              (fitRect (st.main.width : ℚ) (st.main.height : ℚ)
                (img.width : ℚ) (img.height : ℚ)).2.2.1
              (fitRect (st.main.width : ℚ) (st.main.height : ℚ)
                (img.width : ℚ) (img.height : ℚ)).2.2.2 1) }).history := by
  simp only [loadImage]

theorem loadImage_historyStep (st : EngineState) (img : Surface) :
    (loadImage st (some img)).historyStep
      = (saveToHistory
          { st with main := ((st.main.fillAll whiteP).drawImage img
              (fitRect (st.main.width : ℚ) (st.main.height : ℚ)
                (img.width : ℚ) (img.height : ℚ)).1
              (fitRect (st.main.width : ℚ) (st.main.height : ℚ)
                (img.width : ℚ) (img.height : ℚ)).2.1
              (fitRect (st.main.width : ℚ) (st.main.height : ℚ)
                (img.width : ℚ) (img.height : ℚ)).2.2.1
              (fitRect (st.main.width : ℚ) (st.main.height : ℚ)
                (img.width : ℚ) (img.height : ℚ)).2.2.2 1) }).historyStep := by
  simp only [loadImage]

/-- C8: a failed decode mutates nothing and records nothing; a successful
decode fills the committed surface white, draws the image into the
aspect-fit rectangle — aspect ratio preserved, fitting inside the canvas,
centred on the off axis — records a history entry of the result with the
cursor at the last index, and leaves every pixel outside the fitted
rectangle equal to the white background. -/
theorem c8_loadImage (st : EngineState) (img : Surface)
    (hiw : 0 < img.width) (hih : 0 < img.height)
    (hcw : 0 < st.main.width) (hch : 0 < st.main.height) :
    loadImage st none = st ∧
    ((loadImage st (some img)).history[(loadImage st (some img)).historyStep]?
        = some ((loadImage st (some img)).main) ∧
     (loadImage st (some img)).historyStep + 1
        = (loadImage st (some img)).history.length) ∧
    (let r := fitRect (st.main.width : ℚ) (st.main.height : ℚ)
        (img.width : ℚ) (img.height : ℚ)
     (loadImage st (some img)).main
        = (st.main.fillAll whiteP).drawImage img r.1 r.2.1 r.2.2.1 r.2.2.2 1 ∧
     r.2.2.2 * (img.width : ℚ) = r.2.2.1 * (img.height : ℚ) ∧
     0 < r.2.2.1 ∧ r.2.2.1 ≤ (st.main.width : ℚ) ∧
     0 < r.2.2.2 ∧ r.2.2.2 ≤ (st.main.height : ℚ) ∧
     2 * r.1 = (st.main.width : ℚ) - r.2.2.1 ∧
     2 * r.2.1 = (st.main.height : ℚ) - r.2.2.2 ∧
     (∀ x, x < st.main.width → ∀ y, y < st.main.height →
        ((y : ℚ) < r.2.1 ∨ r.2.1 + r.2.2.2 ≤ (y : ℚ) ∨
         (x : ℚ) < r.1 ∨ r.1 + r.2.2.1 ≤ (x : ℚ)) →
        (loadImage st (some img)).main.pix x y = whiteP)) := by
  have hspec := fitRect_spec (st.main.width : ℚ) (st.main.height : ℚ)
    (img.width : ℚ) (img.height : ℚ) (by exact_mod_cast hcw) (by exact_mod_cast hch)
    (by exact_mod_cast hiw) (by exact_mod_cast hih)
  refine ⟨rfl, ⟨?_, ?_⟩, ?_, hspec.1, hspec.2.1, hspec.2.2.1, hspec.2.2.2.1,
    hspec.2.2.2.2.1, hspec.2.2.2.2.2.1, hspec.2.2.2.2.2.2, fun x hx y hy hout => ?_⟩
  · rw [loadImage_history, loadImage_historyStep, loadImage_main]
    exact saveToHistory_top _
  · rw [loadImage_history, loadImage_historyStep]
    exact saveToHistory_step_last _
  · exact loadImage_main st img
  · rw [loadImage_main]
    have hnc : ¬ covers (st.main.fillAll whiteP)
        (fitRect (st.main.width : ℚ) (st.main.height : ℚ)
          (img.width : ℚ) (img.height : ℚ)).1
        (fitRect (st.main.width : ℚ) (st.main.height : ℚ)
          (img.width : ℚ) (img.height : ℚ)).2.1
        (fitRect (st.main.width : ℚ) (st.main.height : ℚ)
          (img.width : ℚ) (img.height : ℚ)).2.2.1
        (fitRect (st.main.width : ℚ) (st.main.height : ℚ)
          (img.width : ℚ) (img.height : ℚ)).2.2.2 x y := by
      intro hc
      obtain ⟨-, -, hc3, hc4, hc5, hc6⟩ := hc
      rw [qle_iff] at hc3 hc5
      rw [qlt_iff, qadd_eq] at hc4 hc6
      rcases hout with hout | hout | hout | hout
      · exact absurd hc5 (not_le.mpr hout)
      · exact absurd hc6 (not_lt.mpr hout)
      · exact absurd hc3 (not_le.mpr hout)
      · exact absurd hc4 (not_lt.mpr hout)
    rw [drawImage_pix_not_covered hnc]
    exact fillAll_pix_in st.main whiteP hx hy

theorem c8_loadImage_witness :
    (0 < img200x100.width ∧ 0 < img200x100.height ∧
     0 < (init 100 100 brushTool).engine.main.width ∧
     0 < (init 100 100 brushTool).engine.main.height) ∧
    loadImage (init 100 100 brushTool).engine none = (init 100 100 brushTool).engine ∧
    (loadImage (init 100 100 brushTool).engine (some img200x100)).historyStep + 1
      = (loadImage (init 100 100 brushTool).engine (some img200x100)).history.length ∧
    (fitRect ((init 100 100 brushTool).engine.main.width : ℚ)
        ((init 100 100 brushTool).engine.main.height : ℚ)
        (img200x100.width : ℚ) (img200x100.height : ℚ))
      = (0, 25, 100, 50) ∧
    (loadImage (init 100 100 brushTool).engine (some img200x100)).main.pix 50 10
      = whiteP ∧
    (loadImage (init 100 100 brushTool).engine (some img200x100)).main.pix 50 90
      = whiteP ∧
    (loadImage (init 100 100 brushTool).engine (some img200x100)).main.pix 50 50
      = blackP :=
  ⟨⟨by decide, by decide, by decide, by decide⟩,
   (c8_loadImage (init 100 100 brushTool).engine img200x100
     (by decide) (by decide) (by decide) (by decide)).1,
   (c8_loadImage (init 100 100 brushTool).engine img200x100
     (by decide) (by decide) (by decide) (by decide)).2.1.2,
   by decide, by decide, by decide, by decide⟩

end MLProject
